import Mathlib

/-!
# Verification of the navigation engine of the merchandise-store bot

This file gives a shallow embedding of the navigation engine
(`src/bot/misc/paginator.py`) and the navigation-relevant pieces of the
scene handlers (`src/bot/handlers/faq.py`, `src/bot/handlers/catalog.py`),
and proves or refutes the frozen claims about them.

Modelling notes.

* A `PageNode` tree with parent back-pointers is represented as a zipper:
  the node currently displayed (`Pag.cur`) together with the path of
  crumbs up to the root (`Pag.path`).  Every crumb stores the data of the
  parent node and the siblings on both sides of the position we descended
  through.  This matches the Python object graph, which in this code base
  is always a tree: nodes are attached to exactly one parent through
  `add_child`, and all mutations during a turn happen at the node being
  rendered, which is exactly the focus of the zipper.
* Python dictionaries are modelled as association lists with the
  insert-or-update operation `dictInsert`: updating an existing key keeps
  its position, a new key is appended.  This is exactly the insertion
  order semantics of `dict` used by `PageNode.children`, keyboards and
  `custom_kbd`.
* Loader functions (the Content Source) are modelled as an environment
  `LoaderEnv` mapping a loader identity (a `Nat`) to a function from
  `(uid, limit, offset)` to either an error (a raised exception) or
  `(data, has_more)` as in `LoaderFunctionProtocol`.  The configured
  loaders (`Paginator.loader_func`, `PaginatorConfig.loader_func`) are
  `Option Nat` values naming entries of that environment.
* The machine integer `cursor` is a Python unbounded `int`, embedded as
  `Int`.  The slice `child_keys[cursor : cursor + page_size]` is taken
  with `Int.toNat`; the cursor is provably never negative.
-/

/-- The callback payload of a button, see `MovePage` and the values stored
in keyboards: either a navigation action or a plain callback token coming
from `custom_kbd` or the global keyboard. -/
inductive BtnAction where
  | down (uid : String)
  | prev
  | current
  | next
  | up
  | custom (tok : String)
  deriving Repr, DecidableEq

/-- Insert-or-update on an association list, with the semantics of
assignment `d[k] = v` on a Python `dict`: an existing key keeps its
position and gets the new value, a fresh key is appended. -/
def dictInsert {α β : Type} [DecidableEq α] (d : List (α × β)) (k : α) (v : β) :
    List (α × β) :=
  if d.any (fun q => q.1 = k) then
    d.map (fun q => if q.1 = k then (k, v) else q)
  else
    d ++ [(k, v)]

/-- The data of one `PageNode` apart from its uid and its children:
the `PageContent` fields used by the engine (`label`, `text`,
`is_leaf_node`, `kwargs`), the per-node `PaginatorConfig`
(`obj_count_per_page` and the optional node-specific `loader_func`),
and `custom_kbd`. -/
structure NodeCore where
  label : Option String
  text : String
  isLeaf : Bool
  kwargs : List (String × String)
  ps : Nat
  nodeLoader : Option Nat
  customKbd : List (String × String)
  deriving Repr

/-- A `PageNode`: uid, content and configuration, and the ordered children
dictionary (represented by its list of values, each of which carries its
uid, the dictionary key). -/
inductive PTree where
  | node (uid : String) (core : NodeCore) (children : List PTree)
  deriving Repr

/-- The uid of a node. -/
def PTree.uid : PTree → String
  | .node u _ _ => u

/-- The content and configuration of a node. -/
def PTree.core : PTree → NodeCore
  | .node _ c _ => c

/-- The ordered children of a node. -/
def PTree.children : PTree → List PTree
  | .node _ _ cs => cs

/-- `PageNode.add_child`: insert or replace a child by uid, keeping the
position of an existing uid (Python dict assignment); the parent pointer
of the child is implicit in the tree shape. -/
def PTree.addChild : PTree → PTree → PTree
  | .node u co cs, c =>
    if cs.any (fun t => t.uid = c.uid) then
      .node u co (cs.map (fun t => if t.uid = c.uid then c else t))
    else
      .node u co (cs ++ [c])

/-- `PageNode.add_children`: `add_child` for every node of the sequence,
in order. -/
def PTree.addChildren (t : PTree) (l : List PTree) : PTree :=
  l.foldl PTree.addChild t

/-- One step of the path from the displayed node up to the root: the data
of the parent node and the siblings before and after the position we
descended through. -/
structure Crumb where
  uid : String
  core : NodeCore
  before : List PTree
  after : List PTree
  deriving Repr

/-- The state of a `Paginator`: the displayed node (`cur`) as the focus of
a zipper whose path encodes the parent chain, the cursor, the engine-level
`loader_func` and the global keyboard. -/
structure Pag where
  path : List Crumb
  cur : PTree
  cursor : Int
  engineLoader : Option Nat
  globalKbd : List (String × String)
  deriving Repr

/-- `Paginator.__init__`: start at the given root with cursor 0. -/
def mkPag (root : PTree) (loaderFunc : Option Nat)
    (globalKbd : List (String × String)) : Pag :=
  { path := [], cur := root, cursor := 0,
    engineLoader := loaderFunc, globalKbd := globalKbd }

/-- The `action` field of `MovePage`. -/
inductive MoveAction where
  | up
  | down (uid : Option String)
  | next
  | prev
  | current
  deriving Repr, DecidableEq

/-- The index of the first node with the given uid, Python
`list(children.keys()).index(uid)` combined with the `uid in children`
membership test. -/
def findUidIdx : List PTree → String → Option Nat
  | [], _ => none
  | t :: ts, u => if t.uid = u then some 0 else (findUidIdx ts u).map (· + 1)

/-- The pure state-transition part of `Paginator.handle_navigation`
(lines 481 to 525), before the re-render done by `show_page`. -/
def navStep (p : Pag) : MoveAction → Pag
  | .next =>
    if p.cursor + (p.cur.core.ps : Int) < (p.cur.children.length : Int)
        ∨ p.cur.core.nodeLoader.isSome ∨ p.engineLoader.isSome then
      { p with cursor := p.cursor + (p.cur.core.ps : Int) }
    else p
  | .prev =>
    if 0 < p.cursor then
      { p with cursor := max 0 (p.cursor - (p.cur.core.ps : Int)) }
    else p
  | .down none => p
  | .down (some u) =>
    match findUidIdx p.cur.children u with
    | none => p
    | some i =>
      { p with
        path := ⟨p.cur.uid, p.cur.core, p.cur.children.take i,
                 p.cur.children.drop (i + 1)⟩ :: p.path,
        cur := (p.cur.children[i]?).getD p.cur,
        cursor := 0 }
  | .up =>
    match p.path with
    | [] => p
    | crumb :: rest =>
      let siblings := crumb.before ++ [p.cur] ++ crumb.after
      let cursor2 : Int :=
        match findUidIdx siblings p.cur.uid with
        | some idx => ((idx / crumb.core.ps) * crumb.core.ps : Nat)
        | none => 0
      { path := rest, cur := PTree.node crumb.uid crumb.core siblings,
        cursor := cursor2, engineLoader := p.engineLoader,
        globalKbd := p.globalKbd }
  | .current => p

/-- One recorded invocation of a Content Source during a render: which
loader was called, and the `(uid, limit, cursor)` arguments passed at
line 365 of `paginator.py`. -/
structure LoadCall where
  loaderId : Nat
  uid : String
  limit : Nat
  offset : Nat
  deriving Repr, DecidableEq

/-- An environment of loader functions: loader identity, then the
`(uid, limit, cursor)` arguments of `LoaderFunctionProtocol`; the result
is an exception or `(data, has_more)`. -/
def LoaderEnv : Type :=
  Nat → String → Nat → Nat → Except Unit (Option (List PTree) × Bool)

/-- The loader selection of `_get_page_content` line 356:
`func if func is not None else self.loader_func if self.loader_func else
target_page.config.loader_func`. -/
def chooseLoader (funcArg engineLoader nodeLoader : Option Nat) : Option Nat :=
  match funcArg with
  | some f => some f
  | none =>
    match engineLoader with
    | some f => some f
    | none => nodeLoader

/-- Applying the data returned by a loader, lines 366 to 370:
`if data: target_page.add_children(data)`. -/
def loadApply : Pag → Option (List PTree) → Pag
  | p, none => p
  | p, some l => if l.isEmpty then p else { p with cur := p.cur.addChildren l }

/-- The loading phase of `Paginator._get_page_content` (lines 351 to 394):
decide whether to call the Content Source, perform the call, attach the
returned children, and report `has_more_on_current_page` together with
the list of Content Source invocations made.  An exception raised by the
loader propagates. -/
def renderStep (L : LoaderEnv) (funcArg : Option Nat) (p : Pag) :
    Except Unit (Pag × Bool × List LoadCall) :=
  if p.cur.core.isLeaf then .ok (p, false, [])
  else if (p.cur.children.length : Int) > p.cursor + (p.cur.core.ps : Int) then
    .ok (p, true, [])
  else if p.cursor + (p.cur.core.ps : Int) ≥ (p.cur.children.length : Int) then
    match chooseLoader funcArg p.engineLoader p.cur.core.nodeLoader with
    | none => .ok (p, false, [])
    | some f =>
      match L f p.cur.uid p.cur.core.ps p.cur.children.length with
      | .error e => .error e
      | .ok (data, hasMore) =>
        .ok (loadApply p data, hasMore,
             [⟨f, p.cur.uid, p.cur.core.ps, p.cur.children.length⟩])
  else .ok (p, false, [])

/-- `Paginator.handle_navigation` followed by the render of `show_page`:
the state transition, then the loading phase.  If the loader raises, the
exception propagates out of `handle_navigation` and the in-memory state
keeps the transition already applied; the second component is `none` in
that case and otherwise carries `(has_more, calls)`. -/
def handleNav (L : LoaderEnv) (p : Pag) (act : MoveAction) :
    Pag × Option (Bool × List LoadCall) :=
  let p1 := navStep p act
  match renderStep L none p1 with
  | .error _ => (p1, none)
  | .ok (p2, hm, cs) => (p2, some (hm, cs))

/-- The state after a plain `show_page` render (scene entry), keeping the
previous state if the loader raises. -/
def showPageState (L : LoaderEnv) (p : Pag) : Pag :=
  match renderStep L none p with
  | .error _ => p
  | .ok (q, _, _) => q

/-- The reset performed by `FAQ.handle_search_query` (faq.py lines
231 to 239): record the search term in the content kwargs, add the
`Delete search query` custom button, reset the cursor to 0 and clear the
children of the displayed node. -/
def sceneReset (term : String) (p : Pag) : Pag :=
  { p with
    cur := PTree.node p.cur.uid
      { p.cur.core with
        kwargs := dictInsert p.cur.core.kwargs "search" term,
        customKbd := dictInsert p.cur.core.customKbd
          "Delete search query" "delete_search" }
      [],
    cursor := 0 }

/-- The navigation-engine states reachable from a given initial state by
turns: navigation callbacks (`handle_navigation` plus its render), plain
renders (`show_page` on scene entry), and the scene-level search reset. -/
inductive Reachable (L : LoaderEnv) (p0 : Pag) : Pag → Prop
  | refl : Reachable L p0 p0
  | nav (q : Pag) (act : MoveAction) :
      Reachable L p0 q → Reachable L p0 (handleNav L q act).1
  | render (q : Pag) :
      Reachable L p0 q → Reachable L p0 (showPageState L q)
  | reset (q : Pag) (term : String) :
      Reachable L p0 q → Reachable L p0 (sceneReset term q)

/-- A keyboard under construction: a Python dictionary from button labels
(`Optional[str]`, the label of a child or the literal text of a control)
to callback payloads. -/
abbrev Kbd : Type := List (Option String × BtnAction)

/-- The window `child_keys[cursor : cursor + obj_count_per_page]` of
children shown on the current page (line 234). -/
def navWindow (t : PTree) (cursor : Int) : List PTree :=
  (t.children.drop cursor.toNat).take t.core.ps

/-- The child-button loop of `KeyboardBuilder.create_navigation`
(lines 233 to 235): one `down` button per child of the window, keyed by
the child label. -/
def childButtons (window : List PTree) : Kbd :=
  window.foldl (fun kb c => dictInsert kb c.core.label (BtnAction.down c.uid)) []

/-- The row sizes for the child buttons (lines 237 to 242): pairs of two,
with a dangling single row when the count is odd. -/
def childSizes (m : Nat) : List Nat :=
  List.replicate (m / 2) 2 ++ (if m % 2 = 1 then [1] else [])

/-- The label of the page-number button, Python
`f"{cursor // items_per_page + 1}"` (line 254), with Python floor
division. -/
def pageNumLabel (cursor : Int) (ps : Nat) : String :=
  (Int.fdiv cursor (ps : Int) + 1).repr

/-- The control buttons of `create_navigation` (lines 245 to 267), added
on top of the child buttons: `prev` when the cursor is positive, the
page-number button when the known children exceed one page, `next` when
`has_more` holds, and the up button when the node has a parent. -/
def controlButtons (t : PTree) (hasParent : Bool) (cursor : Int)
    (hasMore : Bool) (kb : Kbd) : Kbd :=
  let kb1 := if 0 < cursor then dictInsert kb (some "⬅️") BtnAction.prev else kb
  let kb2 := if t.core.ps < t.children.length then
      dictInsert kb1 (some (pageNumLabel cursor t.core.ps)) BtnAction.current
    else kb1
  let kb3 := if hasMore then dictInsert kb2 (some "➡️") BtnAction.next else kb2
  if hasParent then dictInsert kb3 (some "Назад") BtnAction.up else kb3

/-- The row sizes computed by `create_navigation`: the child rows, one
control row holding the controls that were added, one row for the up
button; zero sizes are filtered out (line 270). -/
def navSizes (t : PTree) (hasParent : Bool) (cursor : Int)
    (hasMore : Bool) : List Nat :=
  let window := navWindow t cursor
  let s1 := if t.children.isEmpty then []
    else if 0 < window.length then childSizes window.length else []
  let cr := (if 0 < cursor then 1 else 0)
    + (if t.core.ps < t.children.length then 1 else 0)
    + (if hasMore then 1 else 0)
  let s2 := if 0 < cr then s1 ++ [cr] else s1
  let s3 := if hasParent then s2 ++ [1] else s2
  s3.filter (fun s => 0 < s)

/-- `KeyboardBuilder.create_navigation`: the keyboard (child buttons when
the node has children, then control buttons) and the row sizes. -/
def createNavigation (t : PTree) (hasParent : Bool) (cursor : Int)
    (hasMore : Bool) : Kbd × List Nat :=
  (controlButtons t hasParent cursor hasMore
     (if t.children.isEmpty then [] else childButtons (navWindow t cursor)),
   navSizes t hasParent cursor hasMore)

/-- The merge `{**nav_keyboard, **target_page.custom_kbd, **self.global_kbd}`
of `_get_page_content` line 400: sequential dictionary update. -/
def mergeKbd (nav : Kbd) (customKbd globalKbd : List (String × String)) : Kbd :=
  let k1 := customKbd.foldl
    (fun kb q => dictInsert kb (some q.1) (BtnAction.custom q.2)) nav
  globalKbd.foldl
    (fun kb q => dictInsert kb (some q.1) (BtnAction.custom q.2)) k1

/-- The final button dictionary of a rendered page: navigation keyboard,
then the custom buttons of the node, then the global keyboard. -/
def pageButtons (t : PTree) (hasParent : Bool) (cursor : Int)
    (hasMore : Bool) (globalKbd : List (String × String)) : Kbd :=
  mergeKbd (createNavigation t hasParent cursor hasMore).1
    t.core.customKbd globalKbd

/-- The quantity validation of `set_quantity`
(`src/bot/handlers/catalog.py` lines 483 to 495): the entered quantity is
stored only if `0 < quantity <= product_in_stock`, otherwise the reply is
rejected and nothing is stored. -/
def set_quantity (quantity product_in_stock : Int) : Option Int :=
  if ¬(0 < quantity ∧ quantity ≤ product_in_stock) then none
  else some quantity

/-! ## Helper lemmas about the dictionary model -/

theorem mem_dictInsert {α β : Type} [DecidableEq α] {d : List (α × β)}
    {k a : α} {v b : β} :
    (a, b) ∈ dictInsert d k v ↔ (a = k ∧ b = v) ∨ (a ≠ k ∧ (a, b) ∈ d) := by
  unfold dictInsert
  by_cases h : d.any (fun q => q.1 = k)
  · rw [if_pos h]
    simp only [List.any_eq_true, decide_eq_true_eq] at h
    obtain ⟨⟨x, y⟩, hxy, hx⟩ := h
    dsimp only at hx
    subst hx
    simp only [List.mem_map]
    constructor
    · rintro ⟨⟨x2, y2⟩, hmem, heq⟩
      dsimp only at heq
      by_cases hk : x2 = x
      · rw [if_pos hk] at heq
        injection heq with h1 h2
        subst h1; subst h2
        exact Or.inl ⟨rfl, rfl⟩
      · rw [if_neg hk] at heq
        injection heq with h1 h2
        subst h1; subst h2
        exact Or.inr ⟨hk, hmem⟩
    · rintro (⟨rfl, rfl⟩ | ⟨hne, hmem⟩)
      · exact ⟨(a, y), hxy, by simp⟩
      · exact ⟨(a, b), hmem, by dsimp only; rw [if_neg hne]⟩
  · rw [if_neg h]
    simp only [List.any_eq_true, decide_eq_true_eq, not_exists, not_and] at h
    simp only [List.mem_append, List.mem_singleton, Prod.mk.injEq]
    constructor
    · rintro (hmem | ⟨rfl, rfl⟩)
      · exact Or.inr ⟨fun hak => h (a, b) hmem hak, hmem⟩
      · exact Or.inl ⟨rfl, rfl⟩
    · rintro (⟨rfl, rfl⟩ | ⟨_, hmem⟩)
      · exact Or.inr ⟨rfl, rfl⟩
      · exact Or.inl hmem

theorem self_mem_dictInsert {α β : Type} [DecidableEq α] (d : List (α × β))
    (k : α) (v : β) : (k, v) ∈ dictInsert d k v :=
  mem_dictInsert.2 (Or.inl ⟨rfl, rfl⟩)

theorem mem_dictInsert_of_ne_val {α β : Type} [DecidableEq α]
    {d : List (α × β)} {k a : α} {v b : β} (hb : b ≠ v) :
    (a, b) ∈ dictInsert d k v ↔ a ≠ k ∧ (a, b) ∈ d := by
  rw [mem_dictInsert]
  constructor
  · rintro (⟨rfl, rfl⟩ | hr)
    · exact absurd rfl hb
    · exact hr
  · exact Or.inr

theorem mem_dictInsert_of_ne_key {α β : Type} [DecidableEq α]
    {d : List (α × β)} {k a : α} {v b : β} (ha : a ≠ k) :
    (a, b) ∈ dictInsert d k v ↔ (a, b) ∈ d := by
  rw [mem_dictInsert]
  constructor
  · rintro (⟨rfl, rfl⟩ | hr)
    · exact absurd rfl ha
    · exact hr.2
  · exact fun h => Or.inr ⟨ha, h⟩

theorem length_dictInsert {α β : Type} [DecidableEq α] (d : List (α × β))
    (k : α) (v : β) :
    (dictInsert d k v).length
      = if d.any (fun q => q.1 = k) then d.length else d.length + 1 := by
  unfold dictInsert
  split <;> simp_all

theorem length_dictInsert_le {α β : Type} [DecidableEq α] (d : List (α × β))
    (k : α) (v : β) : (dictInsert d k v).length ≤ d.length + 1 := by
  rw [length_dictInsert]
  split <;> omega

theorem length_dictInsert_of_mem {α β : Type} [DecidableEq α]
    {d : List (α × β)} {k : α} {b : β} (h : (k, b) ∈ d) (v : β) :
    (dictInsert d k v).length = d.length := by
  rw [length_dictInsert, if_pos]
  simp only [List.any_eq_true, decide_eq_true_eq]
  exact ⟨(k, b), h, rfl⟩

/-! ## Characters of decimal representations

The page-number button label is the decimal representation of an integer;
its characters are ASCII, so it never collides with the labels of the
other control buttons. -/

theorem digitChar_toNat_lt (n : Nat) : (Nat.digitChar n).toNat < 128 :=
  match n with
  | 0 => by decide
  | 1 => by decide
  | 2 => by decide
  | 3 => by decide
  | 4 => by decide
  | 5 => by decide
  | 6 => by decide
  | 7 => by decide
  | 8 => by decide
  | 9 => by decide
  | 10 => by decide
  | 11 => by decide
  | 12 => by decide
  | 13 => by decide
  | 14 => by decide
  | 15 => by decide
  | n + 16 => by
    have h : Nat.digitChar (n + 16) = '*' := by
      unfold Nat.digitChar
      repeat rw [if_neg (by omega)]
    rw [h]
    decide

theorem toDigitsCore_toNat_lt (b : Nat) : ∀ (fuel n : Nat) (ds : List Char),
    (∀ c ∈ ds, c.toNat < 128) →
    ∀ c ∈ Nat.toDigitsCore b fuel n ds, c.toNat < 128 := by
  intro fuel
  induction fuel with
  | zero =>
    intro n ds hds c hc
    unfold Nat.toDigitsCore at hc
    exact hds c hc
  | succ fuel ih =>
    intro n ds hds c hc
    unfold Nat.toDigitsCore at hc
    by_cases h0 : n / b = 0
    · rw [if_pos h0] at hc
      rcases List.mem_cons.1 hc with rfl | hm
      · exact digitChar_toNat_lt _
      · exact hds c hm
    · rw [if_neg h0] at hc
      refine ih (n / b) (Nat.digitChar (n % b) :: ds) ?_ c hc
      intro c2 hc2
      rcases List.mem_cons.1 hc2 with rfl | hm
      · exact digitChar_toNat_lt _
      · exact hds c2 hm

theorem natRepr_toNat_lt (n : Nat) : ∀ c ∈ (Nat.repr n).data, c.toNat < 128 := by
  intro c hc
  have h : (Nat.repr n).data = Nat.toDigitsCore 10 (n + 1) n [] := rfl
  rw [h] at hc
  exact toDigitsCore_toNat_lt 10 (n + 1) n [] (by simp) c hc

theorem intRepr_toNat_lt (i : Int) : ∀ c ∈ (Int.repr i).data, c.toNat < 128 := by
  intro c hc
  cases i with
  | ofNat m => exact natRepr_toNat_lt m c hc
  | negSucc m =>
    have h : (Int.repr (Int.negSucc m)).data = '-' :: (Nat.repr (m + 1)).data := rfl
    rw [h] at hc
    rcases List.mem_cons.1 hc with rfl | hm
    · decide
    · exact natRepr_toNat_lt _ c hm

theorem pageNumLabel_ne (cursor : Int) (ps : Nat) (s : String) (ch : Char)
    (hch : ch ∈ s.data) (hge : 128 ≤ ch.toNat) : pageNumLabel cursor ps ≠ s := by
  intro he
  have hd : (pageNumLabel cursor ps).data = s.data := congrArg String.data he
  have hlt := intRepr_toNat_lt (Int.fdiv cursor (ps : Int) + 1) ch
    (by rw [show (Int.fdiv cursor (ps : Int) + 1).repr = pageNumLabel cursor ps from rfl, hd]; exact hch)
  omega

/-! ## Folding dictionary inserts -/

theorem foldInsert_mem {α : Type} (key : α → Option String)
    (val : α → BtnAction) (l : List α) (kb : Kbd) (a : Option String)
    (b : BtnAction)
    (h : (a, b) ∈ l.foldl (fun kb2 x => dictInsert kb2 (key x) (val x)) kb) :
    (∃ x ∈ l, a = key x ∧ b = val x) ∨ (a, b) ∈ kb := by
  induction l generalizing kb with
  | nil => exact Or.inr h
  | cons x xs ih =>
    rw [List.foldl_cons] at h
    rcases ih _ h with ⟨y, hy, hab⟩ | hmem
    · exact Or.inl ⟨y, List.mem_cons_of_mem _ hy, hab⟩
    · rcases mem_dictInsert.1 hmem with ⟨rfl, rfl⟩ | ⟨_, hmem2⟩
      · exact Or.inl ⟨x, List.mem_cons_self .., rfl, rfl⟩
      · exact Or.inr hmem2

theorem foldInsert_last {α : Type} (key : α → Option String)
    (val : α → BtnAction) (l : List α) (kb : Kbd) (a : Option String)
    (x0 : α) (h : l.reverse.find? (fun x => decide (key x = a)) = some x0)
    (b : BtnAction) :
    ((a, b) ∈ l.foldl (fun kb2 x => dictInsert kb2 (key x) (val x)) kb
      ↔ b = val x0) := by
  induction l using List.reverseRecOn generalizing b with
  | nil => simp at h
  | append_singleton xs y ih =>
    rw [List.foldl_append, List.foldl_cons, List.foldl_nil]
    rw [List.reverse_append, List.reverse_singleton, List.singleton_append] at h
    by_cases hy : key y = a
    · rw [List.find?_cons_of_pos _ (by simpa using hy)] at h
      injection h with h0
      subst h0
      constructor
      · intro hm
        rcases mem_dictInsert.1 hm with ⟨_, rfl⟩ | ⟨hne, _⟩
        · rfl
        · exact absurd hy.symm hne
      · rintro rfl
        rw [← hy]
        exact self_mem_dictInsert ..
    · rw [List.find?_cons_of_neg _ (by simpa using hy)] at h
      rw [mem_dictInsert_of_ne_key (fun hh => hy hh.symm)]
      exact ih h b

theorem foldInsert_no_key {α : Type} (key : α → Option String)
    (val : α → BtnAction) (l : List α) (kb : Kbd) (a : Option String)
    (h : ∀ x ∈ l, key x ≠ a) (b : BtnAction) :
    ((a, b) ∈ l.foldl (fun kb2 x => dictInsert kb2 (key x) (val x)) kb
      ↔ (a, b) ∈ kb) := by
  induction l generalizing kb with
  | nil => rfl
  | cons x xs ih =>
    rw [List.foldl_cons]
    rw [ih _ (fun z hz => h z (List.mem_cons_of_mem _ hz))]
    exact mem_dictInsert_of_ne_key
      (fun hh => h x (List.mem_cons_self ..) hh.symm)

theorem foldInsert_present {α : Type} (key : α → Option String)
    (val : α → BtnAction) (l : List α) (kb : Kbd) (x : α) (hx : x ∈ l) :
    ∃ b, (key x, b) ∈ l.foldl (fun kb2 z => dictInsert kb2 (key z) (val z)) kb := by
  have hsome : (l.reverse.find? (fun z => decide (key z = key x))).isSome := by
    rw [List.find?_isSome]
    exact ⟨x, List.mem_reverse.2 hx, by simp⟩
  obtain ⟨x0, hx0⟩ := Option.isSome_iff_exists.1 hsome
  exact ⟨val x0, (foldInsert_last key val l kb (key x) x0 hx0 (val x0)).2 rfl⟩

theorem foldInsert_length_le {α : Type} (key : α → Option String)
    (val : α → BtnAction) (l : List α) (kb : Kbd) :
    (l.foldl (fun kb2 x => dictInsert kb2 (key x) (val x)) kb).length
      ≤ kb.length + l.length := by
  induction l generalizing kb with
  | nil => simp
  | cons x xs ih =>
    rw [List.foldl_cons]
    calc (xs.foldl (fun kb2 z => dictInsert kb2 (key z) (val z))
            (dictInsert kb (key x) (val x))).length
        ≤ (dictInsert kb (key x) (val x)).length + xs.length := ih _
      _ ≤ (kb.length + 1) + xs.length := by
          exact Nat.add_le_add_right (length_dictInsert_le ..) _
      _ = kb.length + (x :: xs).length := by simp [Nat.add_comm, Nat.add_assoc,
          Nat.add_left_comm]

theorem reverse_find?_of_last {α : Type} (p : α → Bool) (l : List α)
    (j : Nat) (x : α) (hj : l[j]? = some x) (hx : p x = true)
    (hlast : ∀ k y, j < k → l[k]? = some y → p y = false) :
    l.reverse.find? p = some x := by
  induction l using List.reverseRecOn with
  | nil => simp at hj
  | append_singleton xs y ih =>
    rw [List.reverse_append, List.reverse_singleton, List.singleton_append]
    have hjlt : j < xs.length + 1 := by
      have := List.getElem?_eq_some_iff.1 hj
      simpa using this.1
    by_cases hjy : j = xs.length
    · have : (xs ++ [y])[j]? = some y := by
        rw [hjy, List.getElem?_append_right (Nat.le_refl _)]
        simp
      rw [this] at hj
      injection hj with hj2
      subst hj2
      rw [List.find?_cons_of_pos _ hx]
    · have hjl : j < xs.length := by omega
      have hj' : xs[j]? = some x := by
        rw [List.getElem?_append_left hjl] at hj
        exact hj
      have hpy : p y = false := by
        refine hlast xs.length y (by omega) ?_
        rw [List.getElem?_append_right (Nat.le_refl _)]
        simp
      rw [List.find?_cons_of_neg _ (by simp [hpy])]
      refine ih hj' ?_
      intro k z hk hkz
      refine hlast k z hk ?_
      rw [List.getElem?_append_left (by
        have := List.getElem?_eq_some_iff.1 hkz
        simpa using this.1)]
      exact hkz

/-! ## Lemmas about uid lookup -/

theorem findUidIdx_eq_of_getElem {l : List PTree} {idx : Nat} {c : PTree}
    (hc : l[idx]? = some c) (hnd : (l.map PTree.uid).Nodup) :
    findUidIdx l c.uid = some idx := by
  induction l generalizing idx with
  | nil => simp at hc
  | cons t ts ih =>
    rw [List.map_cons] at hnd
    obtain ⟨hhead, htail⟩ := List.nodup_cons.1 hnd
    cases idx with
    | zero =>
      simp only [List.getElem?_cons_zero] at hc
      injection hc with hc2
      subst hc2
      unfold findUidIdx
      rw [if_pos rfl]
    | succ i =>
      have hc' : ts[i]? = some c := by simpa using hc
      have hmem : c ∈ ts := by
        have := List.getElem?_eq_some_iff.1 hc'
        obtain ⟨hlt, rfl⟩ := this
        exact List.getElem_mem ..
      have hne : t.uid ≠ c.uid := by
        intro he
        exact hhead (he ▸ List.mem_map_of_mem _ hmem)
      unfold findUidIdx
      rw [if_neg hne, ih hc' htail]
      rfl

theorem findUidIdx_append_middle (l1 l2 : List PTree) (t : PTree)
    (h : ∀ x ∈ l1, x.uid ≠ t.uid) :
    findUidIdx (l1 ++ t :: l2) t.uid = some l1.length := by
  induction l1 with
  | nil =>
    rw [List.nil_append]
    unfold findUidIdx
    rw [if_pos rfl]
    rfl
  | cons a l1 ih =>
    rw [List.cons_append]
    unfold findUidIdx
    rw [if_neg (h a (List.mem_cons_self ..)),
      ih (fun x hx => h x (List.mem_cons_of_mem _ hx))]
    rfl

/-! ## Preservation lemmas: attaching children never touches the uid, the
configuration, or the uids already present at a given position -/

theorem addChild_uid (t c : PTree) : (t.addChild c).uid = t.uid := by
  cases t with
  | node u co cs =>
    simp only [PTree.addChild]
    split <;> rfl

theorem addChild_core (t c : PTree) : (t.addChild c).core = t.core := by
  cases t with
  | node u co cs =>
    simp only [PTree.addChild]
    split <;> rfl

theorem addChild_map_uid_getElem {t c : PTree} {i : Nat} {u : String}
    (h : (t.children.map PTree.uid)[i]? = some u) :
    ((t.addChild c).children.map PTree.uid)[i]? = some u := by
  cases t with
  | node u0 co cs =>
    dsimp only [PTree.children] at h
    simp only [PTree.addChild]
    split
    · dsimp only [PTree.children]
      have heq : (cs.map (fun x => if x.uid = c.uid then c else x)).map PTree.uid
          = cs.map PTree.uid := by
        rw [List.map_map]
        refine List.map_congr_left ?_
        intro x hx
        by_cases hxc : x.uid = c.uid
        · dsimp only [Function.comp]
          rw [if_pos hxc, ← hxc]
        · dsimp only [Function.comp]
          rw [if_neg hxc]
      rw [heq]
      exact h
    · dsimp only [PTree.children]
      rw [List.map_append]
      have hi : i < (cs.map PTree.uid).length := (List.getElem?_eq_some_iff.1 h).1
      rw [List.getElem?_append_left hi]
      exact h

theorem addChildren_uid (t : PTree) (l : List PTree) :
    (t.addChildren l).uid = t.uid := by
  induction l generalizing t with
  | nil => rfl
  | cons c cs ih =>
    unfold PTree.addChildren at ih ⊢
    rw [List.foldl_cons, ih, addChild_uid]

theorem addChildren_core (t : PTree) (l : List PTree) :
    (t.addChildren l).core = t.core := by
  induction l generalizing t with
  | nil => rfl
  | cons c cs ih =>
    unfold PTree.addChildren at ih ⊢
    rw [List.foldl_cons, ih, addChild_core]

theorem addChildren_map_uid_getElem {t : PTree} {l : List PTree} {i : Nat}
    {u : String} (h : (t.children.map PTree.uid)[i]? = some u) :
    ((t.addChildren l).children.map PTree.uid)[i]? = some u := by
  induction l generalizing t with
  | nil => exact h
  | cons c cs ih =>
    unfold PTree.addChildren at ih ⊢
    rw [List.foldl_cons]
    exact ih (addChild_map_uid_getElem h)

theorem loadApply_fields (p : Pag) (data : Option (List PTree)) :
    (loadApply p data).path = p.path ∧ (loadApply p data).cursor = p.cursor ∧
    (loadApply p data).engineLoader = p.engineLoader ∧
    (loadApply p data).globalKbd = p.globalKbd ∧
    (loadApply p data).cur.uid = p.cur.uid ∧
    (loadApply p data).cur.core = p.cur.core ∧
    (∀ (i : Nat) (u : String), (p.cur.children.map PTree.uid)[i]? = some u →
      ((loadApply p data).cur.children.map PTree.uid)[i]? = some u) := by
  cases data with
  | none => exact ⟨rfl, rfl, rfl, rfl, rfl, rfl, fun i u h => h⟩
  | some l =>
    by_cases he : l.isEmpty
    · have heq : loadApply p (some l) = p := by
        change (if l.isEmpty = true then p
          else { p with cur := p.cur.addChildren l }) = p
        exact if_pos he
      rw [heq]
      exact ⟨rfl, rfl, rfl, rfl, rfl, rfl, fun i u h => h⟩
    · have heq : loadApply p (some l) = { p with cur := p.cur.addChildren l } := by
        change (if l.isEmpty = true then p
          else { p with cur := p.cur.addChildren l }) = _
        exact if_neg he
      rw [heq]
      exact ⟨rfl, rfl, rfl, rfl, addChildren_uid .., addChildren_core ..,
        fun i u h => addChildren_map_uid_getElem h⟩

theorem renderStep_ok_shape {L : LoaderEnv} {fa : Option Nat} {p q : Pag}
    {hm : Bool} {cs : List LoadCall}
    (h : renderStep L fa p = .ok (q, hm, cs)) :
    q = p ∨ ∃ data, q = loadApply p data := by
  unfold renderStep at h
  split at h
  · simp only [Except.ok.injEq, Prod.mk.injEq] at h
    exact Or.inl h.1.symm
  · split at h
    · simp only [Except.ok.injEq, Prod.mk.injEq] at h
      exact Or.inl h.1.symm
    · split at h
      · split at h
        · simp only [Except.ok.injEq, Prod.mk.injEq] at h
          exact Or.inl h.1.symm
        · split at h
          · exact absurd h (by simp)
          · simp only [Except.ok.injEq, Prod.mk.injEq] at h
            exact Or.inr ⟨_, h.1.symm⟩
      · simp only [Except.ok.injEq, Prod.mk.injEq] at h
        exact Or.inl h.1.symm

theorem renderStep_ok_preserve {L : LoaderEnv} {fa : Option Nat} {p q : Pag}
    {hm : Bool} {cs : List LoadCall}
    (h : renderStep L fa p = .ok (q, hm, cs)) :
    q.path = p.path ∧ q.cursor = p.cursor ∧
    q.engineLoader = p.engineLoader ∧ q.globalKbd = p.globalKbd ∧
    q.cur.uid = p.cur.uid ∧ q.cur.core = p.cur.core ∧
    (∀ (i : Nat) (u : String), (p.cur.children.map PTree.uid)[i]? = some u →
      (q.cur.children.map PTree.uid)[i]? = some u) := by
  rcases renderStep_ok_shape h with rfl | ⟨data, rfl⟩
  · exact ⟨rfl, rfl, rfl, rfl, rfl, rfl, fun i u hh => hh⟩
  · exact loadApply_fields p data

theorem handleNav_of_error {L : LoaderEnv} {p : Pag} {act : MoveAction}
    (h : renderStep L none (navStep p act) = .error ()) :
    handleNav L p act = (navStep p act, none) := by
  unfold handleNav
  dsimp only
  rw [h]

theorem handleNav_of_ok {L : LoaderEnv} {p : Pag} {act : MoveAction}
    {q : Pag} {hm : Bool} {cs : List LoadCall}
    (h : renderStep L none (navStep p act) = .ok (q, hm, cs)) :
    handleNav L p act = (q, some (hm, cs)) := by
  unfold handleNav
  dsimp only
  rw [h]

/-! ## Further characterization lemmas -/

theorem navStep_next (p : Pag) :
    navStep p MoveAction.next
      = if p.cursor + (p.cur.core.ps : Int) < (p.cur.children.length : Int)
          ∨ p.cur.core.nodeLoader.isSome ∨ p.engineLoader.isSome
        then { p with cursor := p.cursor + (p.cur.core.ps : Int) }
        else p := rfl

theorem navStep_prev (p : Pag) :
    navStep p MoveAction.prev
      = if 0 < p.cursor
        then { p with cursor := max 0 (p.cursor - (p.cur.core.ps : Int)) }
        else p := rfl

theorem navStep_current (p : Pag) : navStep p MoveAction.current = p := rfl

theorem navStep_down_none (p : Pag) : navStep p (MoveAction.down none) = p := rfl

theorem navStep_down_some (p : Pag) (u : String) :
    navStep p (MoveAction.down (some u))
      = match findUidIdx p.cur.children u with
        | none => p
        | some i =>
          { p with
            path := ⟨p.cur.uid, p.cur.core, p.cur.children.take i,
                     p.cur.children.drop (i + 1)⟩ :: p.path,
            cur := (p.cur.children[i]?).getD p.cur,
            cursor := 0 } := rfl

theorem navStep_up (p : Pag) :
    navStep p MoveAction.up
      = match p.path with
        | [] => p
        | crumb :: rest =>
          { path := rest,
            cur := PTree.node crumb.uid crumb.core
              (crumb.before ++ [p.cur] ++ crumb.after),
            cursor :=
              match findUidIdx (crumb.before ++ [p.cur] ++ crumb.after)
                  p.cur.uid with
              | some idx => ((idx / crumb.core.ps) * crumb.core.ps : Nat)
              | none => 0,
            engineLoader := p.engineLoader,
            globalKbd := p.globalKbd } := rfl

theorem handleNav_cursor (L : LoaderEnv) (p : Pag) (act : MoveAction) :
    (handleNav L p act).1.cursor = (navStep p act).cursor := by
  cases hre : renderStep L none (navStep p act) with
  | error e =>
    cases e
    rw [handleNav_of_error hre]
  | ok r =>
    obtain ⟨q, hm, cs⟩ := r
    rw [handleNav_of_ok hre]
    exact (renderStep_ok_preserve hre).2.1

theorem renderStep_error_loader {L : LoaderEnv} {fa : Option Nat} {p : Pag}
    (h : renderStep L fa p = .error ()) :
    (chooseLoader fa p.engineLoader p.cur.core.nodeLoader).isSome := by
  unfold renderStep at h
  split at h
  · exact absurd h (by simp)
  · split at h
    · exact absurd h (by simp)
    · split at h
      · split at h
        · exact absurd h (by simp)
        · next f heq =>
          rw [heq]
          rfl
      · exact absurd h (by simp)

theorem chooseLoader_none_isSome {el nl : Option Nat}
    (h : (chooseLoader none el nl).isSome) : el.isSome ∨ nl.isSome := by
  cases el with
  | some f => exact Or.inl rfl
  | none =>
    cases nl with
    | some g => exact Or.inr rfl
    | none => exact absurd h (by simp [chooseLoader])

theorem navStep_next_of_loader (p : Pag)
    (h : p.cur.core.nodeLoader.isSome ∨ p.engineLoader.isSome) :
    navStep p MoveAction.next
      = { p with cursor := p.cursor + (p.cur.core.ps : Int) } := by
  rw [navStep_next, if_pos]
  rcases h with h | h
  · exact Or.inr (Or.inl h)
  · exact Or.inr (Or.inr h)

theorem renderStep_calls {L : LoaderEnv} {fa : Option Nat} {p q : Pag}
    {hm : Bool} {cs : List LoadCall}
    (h : renderStep L fa p = .ok (q, hm, cs)) :
    ∀ c ∈ cs, c.offset = p.cur.children.length ∧ c.limit = p.cur.core.ps := by
  unfold renderStep at h
  split at h
  · simp only [Except.ok.injEq, Prod.mk.injEq] at h
    rw [← h.2.2]
    simp
  · split at h
    · simp only [Except.ok.injEq, Prod.mk.injEq] at h
      rw [← h.2.2]
      simp
    · split at h
      · split at h
        · simp only [Except.ok.injEq, Prod.mk.injEq] at h
          rw [← h.2.2]
          simp
        · split at h
          · exact absurd h (by simp)
          · simp only [Except.ok.injEq, Prod.mk.injEq] at h
            rw [← h.2.2]
            intro c hc
            rw [List.mem_singleton] at hc
            subst hc
            exact ⟨rfl, rfl⟩
      · simp only [Except.ok.injEq, Prod.mk.injEq] at h
        rw [← h.2.2]
        simp

/-! ## Concrete states used as inputs of witnesses and counterexamples -/

/-- The configuration of the FAQ root node built in `faq.py`. -/
def demoCore : NodeCore :=
  { label := some "FAQ Root", text := "You are in FAQ:", isLeaf := false,
    kwargs := [], ps := 5, nodeLoader := none, customKbd := [] }

/-- A leaf item such as one FAQ entry. -/
def demoLeafCore (lab : String) : NodeCore :=
  { label := some lab, text := lab, isLeaf := true, kwargs := [], ps := 5,
    nodeLoader := none, customKbd := [] }

/-- A leaf node with the given uid and label. -/
def demoLeaf (u lab : String) : PTree := .node u (demoLeafCore lab) []

/-- A loader that returns two FAQ entries and reports `has_more = false`. -/
def okLoader : LoaderEnv := fun _ _ _ _ =>
  .ok (some [demoLeaf "faq_1" "Q1", demoLeaf "faq_2" "Q2"], false)

/-- A loader that always raises. -/
def errLoader : LoaderEnv := fun _ _ _ _ => .error ()

/-- A loader that returns nothing and reports `has_more = false`. -/
def nilLoader : LoaderEnv := fun _ _ _ _ => .ok (none, false)

/-- A freshly constructed engine on the FAQ root with an engine-level
loader. -/
def demoPag : Pag := mkPag (.node "faq_root" demoCore []) (some 0) []

/-- The engine after one render: both FAQ entries are loaded and the most
recent load reported `has_more = false`. -/
def demoLoaded : Pag := (handleNav okLoader demoPag .current).1

/-! ## Claims -/

/-- Claim C8: in the SetQuantity sub-state a quantity is accepted and
stored exactly when `1 <= q <= stock`; `q = 0` and `q > stock` are
rejected and nothing is stored. -/
theorem c8_theorem (q s : Int) :
    (set_quantity q s = some q ↔ 1 ≤ q ∧ q ≤ s)
    ∧ set_quantity 0 s = none
    ∧ (s < q → set_quantity q s = none) := by
  refine ⟨⟨?_, ?_⟩, ?_, ?_⟩
  · intro h
    by_cases hc : 0 < q ∧ q ≤ s
    · exact ⟨by omega, hc.2⟩
    · exfalso
      unfold set_quantity at h
      rw [if_pos hc] at h
      exact Option.noConfusion h
  · intro h
    unfold set_quantity
    rw [if_neg (fun hn => hn ⟨by omega, h.2⟩)]
  · unfold set_quantity
    rw [if_pos (fun hc => by omega)]
  · intro h
    unfold set_quantity
    rw [if_pos (fun hc => by omega)]

/-- Witness for C8 at quantity 3 and stock 5. -/
theorem c8_witness :
    (set_quantity 3 5 = some 3 ↔ 1 ≤ (3 : Int) ∧ (3 : Int) ≤ 5)
    ∧ set_quantity 0 5 = none
    ∧ ((5 : Int) < 3 → set_quantity 3 5 = none) :=
  c8_theorem 3 5

/-- Claim C9: rendering a node whose `content.is_leaf_node` flag is true
never invokes any Content Source, regardless of the cursor, the known
children, or the configured loader functions; the state is unchanged and
`has_more` is false. -/
theorem c9_theorem (L : LoaderEnv) (funcArg : Option Nat) (p : Pag)
    (hleaf : p.cur.core.isLeaf = true) :
    renderStep L funcArg p = .ok (p, false, []) := by
  unfold renderStep
  rw [if_pos hleaf]

/-- Witness for C9: a leaf node rendered with an engine-level loader that
would raise if called; no call happens. -/
theorem c9_witness :
    renderStep errLoader none (mkPag (demoLeaf "product_1" "Item") (some 0) [])
      = .ok (mkPag (demoLeaf "product_1" "Item") (some 0) [], false, []) :=
  c9_theorem errLoader none _ rfl

/-- A node configured with both an engine-level loader (identity 1) and a
node-specific loader (identity 2) in `PageNode.config.loader_func`. -/
def bothPag : Pag :=
  mkPag (.node "r" { demoCore with nodeLoader := some 2 } []) (some 1) []

/-- Claim C3: the code of `_get_page_content` line 356 resolves the loader
as argument, then `self.loader_func`, then `page.config.loader_func`, so
when both an engine-level and a node-specific loader are configured the
ENGINE-LEVEL one is invoked, contrary to the documented node-specific
override: with `self.loader_func = 1` and `config.loader_func = 2`, the
render records a call to loader 1. -/
theorem c3_theorem :
    chooseLoader none (some 1) (some 2) = some 1
    ∧ renderStep nilLoader none bothPag = .ok (bothPag, false, [⟨1, "r", 5, 0⟩])
    ∧ (1 : Nat) ≠ 2 :=
  ⟨rfl, rfl, by decide⟩

/-- Claim C1 counterexample: from a fresh engine with an engine-level
loader, a `next` transition whose Content Source raises leaves the
in-memory cursor at 5, not at its pre-transition value 0; the render is
aborted (`none`), the current node and its children are untouched. -/
theorem c1_counterexample :
    (handleNav errLoader demoPag MoveAction.next).2 = none
    ∧ demoPag.cursor = 0
    ∧ (handleNav errLoader demoPag MoveAction.next).1.cursor = 5
    ∧ (handleNav errLoader demoPag MoveAction.next).1.cur.uid = demoPag.cur.uid
    ∧ (handleNav errLoader demoPag MoveAction.next).1.cur.children
        = demoPag.cur.children := by
  exact ⟨rfl, rfl, rfl, rfl, rfl⟩

/-- Claim C1 (amended): if the Content Source raises during a `next`
transition, the exception aborts the render, no children are appended and
the current node is unchanged, but the cursor keeps the value
`cursor + page_size` to which `handle_navigation` had already advanced it
before the load. -/
theorem c1_theorem (L : LoaderEnv) (p : Pag)
    (herr : renderStep L none (navStep p MoveAction.next) = .error ()) :
    handleNav L p MoveAction.next = (navStep p MoveAction.next, none)
    ∧ (navStep p MoveAction.next).cur = p.cur
    ∧ (navStep p MoveAction.next).path = p.path
    ∧ (navStep p MoveAction.next).cursor
        = p.cursor + (p.cur.core.ps : Int) := by
  have hl := renderStep_error_loader herr
  have hl2 : p.cur.core.nodeLoader.isSome ∨ p.engineLoader.isSome := by
    have h1 : (navStep p MoveAction.next).cur = p.cur := by
      rw [navStep_next]
      split <;> rfl
    have h2 : (navStep p MoveAction.next).engineLoader = p.engineLoader := by
      rw [navStep_next]
      split <;> rfl
    rw [h1, h2] at hl
    rcases chooseLoader_none_isSome hl with h | h
    · exact Or.inr h
    · exact Or.inl h
  have hns := navStep_next_of_loader p hl2
  refine ⟨handleNav_of_error herr, ?_, ?_, ?_⟩ <;> rw [hns]

/-- Witness for C1 (amended) on the concrete failing state. -/
theorem c1_witness :
    handleNav errLoader demoPag MoveAction.next
        = (navStep demoPag MoveAction.next, none)
    ∧ (navStep demoPag MoveAction.next).cur = demoPag.cur
    ∧ (navStep demoPag MoveAction.next).path = demoPag.path
    ∧ (navStep demoPag MoveAction.next).cursor
        = demoPag.cursor + (demoPag.cur.core.ps : Int) :=
  c1_theorem errLoader demoPag rfl

/-- Claim C2 counterexample: a reachable state whose most recent load
reported `has_more = false` and whose two known children are entirely
inside the window `[0, 5)`, yet `next` advances the cursor to 5 because an
engine-level loader is configured. -/
theorem c2_counterexample :
    Reachable okLoader demoPag demoLoaded
    ∧ (handleNav okLoader demoPag MoveAction.current).2
        = some (false, [⟨0, "faq_root", 5, 0⟩])
    ∧ demoLoaded.cursor = 0
    ∧ demoLoaded.cur.children.length = 2
    ∧ (demoLoaded.cur.children.length : Int)
        ≤ demoLoaded.cursor + (demoLoaded.cur.core.ps : Int)
    ∧ (handleNav okLoader demoLoaded MoveAction.next).1.cursor = 5 := by
  refine ⟨?_, ?_, ?_, ?_, ?_, ?_⟩
  · exact Reachable.nav demoPag MoveAction.current Reachable.refl
  · rfl
  · rfl
  · rfl
  · decide
  · rfl

/-- Claim C2 (amended): `next` leaves the cursor unchanged exactly when no
known children lie beyond the current window AND no loader function (node
level or engine level) is configured; whenever one is configured, `next`
advances the cursor by `page_size` even if the most recent load reported
`has_more = false`. -/
theorem c2_theorem (L : LoaderEnv) (p : Pag) (hps : 0 < p.cur.core.ps) :
    ((handleNav L p MoveAction.next).1.cursor = p.cursor
      ↔ ¬(p.cursor + (p.cur.core.ps : Int) < (p.cur.children.length : Int)
          ∨ p.cur.core.nodeLoader.isSome ∨ p.engineLoader.isSome))
    ∧ ((p.cursor + (p.cur.core.ps : Int) < (p.cur.children.length : Int)
          ∨ p.cur.core.nodeLoader.isSome ∨ p.engineLoader.isSome)
        → (handleNav L p MoveAction.next).1.cursor
            = p.cursor + (p.cur.core.ps : Int)) := by
  rw [handleNav_cursor]
  by_cases hc : p.cursor + (p.cur.core.ps : Int) < (p.cur.children.length : Int)
      ∨ p.cur.core.nodeLoader.isSome ∨ p.engineLoader.isSome
  · have hns : navStep p MoveAction.next
        = { p with cursor := p.cursor + (p.cur.core.ps : Int) } := by
      unfold navStep
      rw [if_pos hc]
    rw [hns]
    constructor
    · constructor
      · intro habs
        exfalso
        dsimp only at habs
        omega
      · intro hn
        exact absurd hc hn
    · intro _
      rfl
  · have hns : navStep p MoveAction.next = p := by
      unfold navStep
      rw [if_neg hc]
    rw [hns]
    exact ⟨⟨fun _ => hc, fun _ => rfl⟩, fun h => absurd h hc⟩

/-- Witness for C2 (amended): with a loader configured, `next` advances
the cursor from 0 to 5 on the loaded demo state. -/
theorem c2_witness :
    (handleNav okLoader demoLoaded MoveAction.next).1.cursor
      = demoLoaded.cursor + (demoLoaded.cur.core.ps : Int) :=
  (c2_theorem okLoader demoLoaded (by decide)).2 (by decide)

/-- Claim C4: for a render of a non-leaf node, the Content Source is not
invoked when more children are already known than `cursor + page_size`;
otherwise, with a source configured, it is invoked exactly once with
`limit = page_size` and `offset = len(children)` and its children are
attached via `attach_children` (`loadApply`); with no source configured no
fetch occurs; and after the scene-level reset every call of the next
render uses `offset = 0`. -/
theorem c4_theorem (L : LoaderEnv) (funcArg : Option Nat) (p : Pag)
    (hleaf : p.cur.core.isLeaf = false) :
    ((p.cursor + (p.cur.core.ps : Int) < (p.cur.children.length : Int)) →
        renderStep L funcArg p = .ok (p, true, []))
    ∧ ((p.cur.children.length : Int) ≤ p.cursor + (p.cur.core.ps : Int) →
        (chooseLoader funcArg p.engineLoader p.cur.core.nodeLoader = none →
          renderStep L funcArg p = .ok (p, false, []))
        ∧ (∀ f, chooseLoader funcArg p.engineLoader p.cur.core.nodeLoader
              = some f →
            (L f p.cur.uid p.cur.core.ps p.cur.children.length = .error () →
              renderStep L funcArg p = .error ())
            ∧ (∀ data hm,
                L f p.cur.uid p.cur.core.ps p.cur.children.length
                    = .ok (data, hm) →
                renderStep L funcArg p
                  = .ok (loadApply p data, hm,
                      [⟨f, p.cur.uid, p.cur.core.ps,
                        p.cur.children.length⟩]))))
    ∧ (∀ (term : String) (q : Pag) (hm : Bool) (cs : List LoadCall),
        renderStep L funcArg (sceneReset term p) = .ok (q, hm, cs) →
        ∀ c ∈ cs, c.offset = 0 ∧ c.limit = p.cur.core.ps) := by
  refine ⟨?_, ?_, ?_⟩
  · intro hlt
    unfold renderStep
    rw [if_neg (by rw [hleaf]; simp), if_pos hlt]
  · intro hge
    constructor
    · intro hnone
      unfold renderStep
      rw [if_neg (by rw [hleaf]; simp), if_neg (by omega), if_pos (by omega),
        hnone]
    · intro f hsome
      constructor
      · intro herr
        unfold renderStep
        rw [if_neg (by rw [hleaf]; simp), if_neg (by omega), if_pos (by omega),
          hsome]
        show (match L f p.cur.uid p.cur.core.ps p.cur.children.length with
          | Except.error e => Except.error e
          | Except.ok (data, hasMore) =>
            Except.ok (loadApply p data, hasMore,
              [{ loaderId := f, uid := p.cur.uid, limit := p.cur.core.ps,
                 offset := p.cur.children.length : LoadCall }]))
          = Except.error ()
        rw [herr]
      · intro data hm hok
        unfold renderStep
        rw [if_neg (by rw [hleaf]; simp), if_neg (by omega), if_pos (by omega),
          hsome]
        show (match L f p.cur.uid p.cur.core.ps p.cur.children.length with
          | Except.error e => Except.error e
          | Except.ok (data, hasMore) =>
            Except.ok (loadApply p data, hasMore,
              [{ loaderId := f, uid := p.cur.uid, limit := p.cur.core.ps,
                 offset := p.cur.children.length : LoadCall }]))
          = Except.ok (loadApply p data, hm,
              [{ loaderId := f, uid := p.cur.uid, limit := p.cur.core.ps,
                 offset := p.cur.children.length : LoadCall }])
        rw [hok]
  · intro term q hm cs hre c hc
    have := renderStep_calls hre c hc
    exact ⟨this.1, this.2⟩

/-- Witness for C4: on the fresh demo state (0 known children, window at
the edge), the source is invoked once with limit 5 and offset 0 and its
two children are attached. -/
theorem c4_witness :
    renderStep okLoader none demoPag
      = .ok (loadApply demoPag
              (some [demoLeaf "faq_1" "Q1", demoLeaf "faq_2" "Q2"]),
             false, [⟨0, "faq_root", 5, 0⟩]) :=
  (((c4_theorem okLoader none demoPag rfl).2.1 (by decide)).2 0 rfl).2
    (some [demoLeaf "faq_1" "Q1", demoLeaf "faq_2" "Q2"]) false rfl

/-! ## The cursor invariant -/

/-- The invariant of claim C6: the cursor is non-negative and a multiple
of the page size of the displayed node. -/
def cursorInv (p : Pag) : Prop :=
  0 ≤ p.cursor ∧ (p.cur.core.ps : Int) ∣ p.cursor

theorem cursorInv_navStep {p : Pag} (h : cursorInv p) (act : MoveAction) :
    cursorInv (navStep p act) := by
  cases act with
  | next =>
    rw [navStep_next]
    split
    · exact ⟨by have := h.1; positivity, dvd_add h.2 dvd_rfl⟩
    · exact h
  | prev =>
    rw [navStep_prev]
    split
    · refine ⟨le_max_left .., ?_⟩
      rcases le_total (p.cursor - (p.cur.core.ps : Int)) 0 with hle | hle
      · rw [show max 0 (p.cursor - (p.cur.core.ps : Int)) = 0 from
          max_eq_left hle]
        exact dvd_zero _
      · rw [max_eq_right hle]
        exact dvd_sub h.2 dvd_rfl
    · exact h
  | current => exact h
  | down u =>
    cases u with
    | none => exact h
    | some u =>
      rw [navStep_down_some]
      cases hf : findUidIdx p.cur.children u with
      | none => exact h
      | some i => exact ⟨le_refl 0, dvd_zero _⟩
  | up =>
    obtain ⟨path, cur, cursor, el, gk⟩ := p
    cases path with
    | nil => exact h
    | cons crumb rest =>
      simp only [navStep]
      cases hf : findUidIdx (crumb.before ++ [cur] ++ crumb.after) cur.uid with
      | none => exact ⟨le_refl 0, dvd_zero _⟩
      | some idx =>
        exact ⟨Int.natCast_nonneg _, Int.natCast_dvd_natCast.2 (dvd_mul_left _ _)⟩

theorem cursorInv_handleNav {L : LoaderEnv} {p : Pag} (act : MoveAction)
    (h : cursorInv (navStep p act)) : cursorInv (handleNav L p act).1 := by
  cases hre : renderStep L none (navStep p act) with
  | error e =>
    cases e
    rw [handleNav_of_error hre]
    exact h
  | ok r =>
    obtain ⟨q, hm, cs⟩ := r
    rw [handleNav_of_ok hre]
    have hp := renderStep_ok_preserve hre
    constructor
    · rw [hp.2.1]
      exact h.1
    · rw [hp.2.1, hp.2.2.2.2.2.1]
      exact h.2

theorem cursorInv_showPage {L : LoaderEnv} {p : Pag} (h : cursorInv p) :
    cursorInv (showPageState L p) := by
  unfold showPageState
  cases hre : renderStep L none p with
  | error e => exact h
  | ok r =>
    obtain ⟨q, hm, cs⟩ := r
    have hp := renderStep_ok_preserve hre
    constructor
    · rw [hp.2.1]
      exact h.1
    · rw [hp.2.1, hp.2.2.2.2.2.1]
      exact h.2

/-- Claim C6: in every state reachable from a freshly constructed engine
by navigation callbacks, renders and scene resets, the cursor is
non-negative and an integer multiple of the page size of the displayed
node. -/
theorem c6_theorem (L : LoaderEnv) (root : PTree) (el : Option Nat)
    (gk : List (String × String)) (p : Pag)
    (h : Reachable L (mkPag root el gk) p) :
    0 ≤ p.cursor ∧ (p.cur.core.ps : Int) ∣ p.cursor := by
  induction h with
  | refl => exact ⟨le_refl 0, dvd_zero _⟩
  | nav q act hq ih => exact cursorInv_handleNav act (cursorInv_navStep ih act)
  | render q hq ih => exact cursorInv_showPage ih
  | reset q term hq ih => exact ⟨le_refl 0, dvd_zero _⟩

/-- Witness for C6 on a concrete reachable state: after a render and one
`next`, the cursor 5 is non-negative and a multiple of the page size 5. -/
theorem c6_witness :
    0 ≤ (handleNav okLoader demoLoaded MoveAction.next).1.cursor
    ∧ ((handleNav okLoader demoLoaded MoveAction.next).1.cur.core.ps : Int)
        ∣ (handleNav okLoader demoLoaded MoveAction.next).1.cursor :=
  c6_theorem okLoader (.node "faq_root" demoCore []) (some 0) []
    (handleNav okLoader demoLoaded MoveAction.next).1
    (Reachable.nav demoLoaded MoveAction.next
      (Reachable.nav demoPag MoveAction.current Reachable.refl))

/-! ## Peeling conditional inserts -/

theorem mem_iteInsert_of_ne_key {α β : Type} [DecidableEq α] {c : Prop}
    [Decidable c] {d : List (α × β)} {k a : α} {v b : β} (ha : a ≠ k) :
    ((a, b) ∈ (if c then dictInsert d k v else d)) ↔ (a, b) ∈ d := by
  split
  · exact mem_dictInsert_of_ne_key ha
  · exact Iff.rfl

theorem mem_iteInsert_of_ne_val {α β : Type} [DecidableEq α] {c : Prop}
    [Decidable c] {d : List (α × β)} {k a : α} {v b : β} (hb : b ≠ v)
    (h : (a, b) ∈ (if c then dictInsert d k v else d)) : (a, b) ∈ d := by
  split at h
  · exact ((mem_dictInsert_of_ne_val hb).1 h).2
  · exact h

theorem mem_iteInsert_self {α β : Type} [DecidableEq α] {c : Prop}
    [Decidable c] {d : List (α × β)} {k : α} {v : β} (hc : c) :
    (k, v) ∈ (if c then dictInsert d k v else d) := by
  rw [if_pos hc]
  exact self_mem_dictInsert ..

theorem childButtons_down {window : List PTree} {a : Option String}
    {b : BtnAction} (h : (a, b) ∈ childButtons window) :
    ∃ c ∈ window, a = c.core.label ∧ b = BtnAction.down c.uid := by
  unfold childButtons at h
  rcases foldInsert_mem (fun c => c.core.label) (fun c => BtnAction.down c.uid)
      window [] a b h with ⟨x, hx, hab⟩ | hmem
  · exact ⟨x, hx, hab⟩
  · simp at hmem

theorem navBase_down {t : PTree} {cursor : Int} {a : Option String}
    {b : BtnAction}
    (h : (a, b) ∈ (if t.children.isEmpty then []
        else childButtons (navWindow t cursor))) :
    ∃ u, b = BtnAction.down u := by
  split at h
  · simp at h
  · obtain ⟨c, _, _, hb⟩ := childButtons_down h
    exact ⟨c.uid, hb⟩

theorem some_ne_pageNumLabel {s : String} {ch : Char} (hch : ch ∈ s.data)
    (hge : 128 ≤ ch.toNat) (cursor : Int) (ps : Nat) :
    (some s : Option String) ≠ some (pageNumLabel cursor ps) :=
  fun hcon => pageNumLabel_ne cursor ps s ch hch hge (Option.some.inj hcon).symm

/-- Claim C7: in the keyboard built by `create_navigation`, a previous
button is present exactly when the cursor is positive, a page-number
button exactly when the known children exceed one page, a next button
exactly when the render reported `has_more`, and an up button exactly
when the node has a parent. -/
theorem c7_theorem (t : PTree) (hasParent : Bool) (cursor : Int)
    (hasMore : Bool) :
    ((some "⬅️", BtnAction.prev) ∈ (createNavigation t hasParent cursor hasMore).1
        ↔ 0 < cursor)
    ∧ ((∃ l, (l, BtnAction.current)
          ∈ (createNavigation t hasParent cursor hasMore).1)
        ↔ t.core.ps < t.children.length)
    ∧ ((some "➡️", BtnAction.next) ∈ (createNavigation t hasParent cursor hasMore).1
        ↔ hasMore = true)
    ∧ ((some "Назад", BtnAction.up) ∈ (createNavigation t hasParent cursor hasMore).1
        ↔ hasParent = true) := by
  simp only [createNavigation, controlButtons]
  refine ⟨?_, ?_, ?_, ?_⟩
  · rw [mem_iteInsert_of_ne_key
        (show (some "⬅️" : Option String) ≠ some "Назад" by decide),
      mem_iteInsert_of_ne_key
        (show (some "⬅️" : Option String) ≠ some "➡️" by decide),
      mem_iteInsert_of_ne_key
        (some_ne_pageNumLabel (show '⬅' ∈ "⬅️".data by decide) (by decide)
          cursor t.core.ps)]
    by_cases h0 : 0 < cursor
    · rw [if_pos h0]
      exact ⟨fun _ => h0, fun _ => self_mem_dictInsert ..⟩
    · rw [if_neg h0]
      constructor
      · intro h
        obtain ⟨u, hu⟩ := navBase_down h
        exact absurd hu (by simp)
      · intro h
        exact absurd h h0
  · constructor
    · rintro ⟨l, h⟩
      have h3 := mem_iteInsert_of_ne_val
        (show BtnAction.current ≠ BtnAction.up by decide) h
      have h2 := mem_iteInsert_of_ne_val
        (show BtnAction.current ≠ BtnAction.next by decide) h3
      by_cases hlen : t.core.ps < t.children.length
      · exact hlen
      · rw [if_neg hlen] at h2
        have h1 := mem_iteInsert_of_ne_val
          (show BtnAction.current ≠ BtnAction.prev by decide) h2
        obtain ⟨u, hu⟩ := navBase_down h1
        exact absurd hu (by simp)
    · intro hlen
      refine ⟨some (pageNumLabel cursor t.core.ps), ?_⟩
      rw [mem_iteInsert_of_ne_key
          (Ne.symm (some_ne_pageNumLabel (show 'Н' ∈ "Назад".data by decide)
            (by decide) cursor t.core.ps)),
        mem_iteInsert_of_ne_key
          (Ne.symm (some_ne_pageNumLabel (show '➡' ∈ "➡️".data by decide)
            (by decide) cursor t.core.ps))]
      exact mem_iteInsert_self hlen
  · rw [mem_iteInsert_of_ne_key
        (show (some "➡️" : Option String) ≠ some "Назад" by decide)]
    by_cases hhm : hasMore = true
    · rw [if_pos hhm]
      exact ⟨fun _ => hhm, fun _ => self_mem_dictInsert ..⟩
    · rw [if_neg hhm]
      constructor
      · intro h
        have h2 := mem_iteInsert_of_ne_val
          (show BtnAction.next ≠ BtnAction.current by decide) h
        have h1 := mem_iteInsert_of_ne_val
          (show BtnAction.next ≠ BtnAction.prev by decide) h2
        obtain ⟨u, hu⟩ := navBase_down h1
        exact absurd hu (by simp)
      · intro hcon
        exact absurd hcon hhm
  · by_cases hhp : hasParent = true
    · rw [if_pos hhp]
      exact ⟨fun _ => hhp, fun _ => self_mem_dictInsert ..⟩
    · rw [if_neg hhp]
      constructor
      · intro h
        have h3 := mem_iteInsert_of_ne_val
          (show BtnAction.up ≠ BtnAction.next by decide) h
        have h2 := mem_iteInsert_of_ne_val
          (show BtnAction.up ≠ BtnAction.current by decide) h3
        have h1 := mem_iteInsert_of_ne_val
          (show BtnAction.up ≠ BtnAction.prev by decide) h2
        obtain ⟨u, hu⟩ := navBase_down h1
        exact absurd hu (by simp)
      · intro hcon
        exact absurd hcon hhp

/-! ## Helpers for the down-then-up round trip -/

theorem navStep_up_nil {p : Pag} (hp : p.path = []) :
    navStep p MoveAction.up = p := by
  obtain ⟨path, cur, cursor, el, gk⟩ := p
  dsimp only at hp
  subst hp
  rfl

theorem navStep_up_cons {p : Pag} {crumb : Crumb} {rest : List Crumb}
    (hp : p.path = crumb :: rest) :
    navStep p MoveAction.up
      = { path := rest,
          cur := PTree.node crumb.uid crumb.core
            (crumb.before ++ [p.cur] ++ crumb.after),
          cursor :=
            match findUidIdx (crumb.before ++ [p.cur] ++ crumb.after)
                p.cur.uid with
            | some i => ((i / crumb.core.ps) * crumb.core.ps : Nat)
            | none => 0,
          engineLoader := p.engineLoader,
          globalKbd := p.globalKbd } := by
  obtain ⟨path, cur, cursor, el, gk⟩ := p
  dsimp only at hp
  subst hp
  rfl

theorem navStep_down_eq {p : Pag} {idx : Nat} {c : PTree}
    (hc : p.cur.children[idx]? = some c)
    (hfind : findUidIdx p.cur.children c.uid = some idx) :
    navStep p (MoveAction.down (some c.uid))
      = { path := ⟨p.cur.uid, p.cur.core, p.cur.children.take idx,
                   p.cur.children.drop (idx + 1)⟩ :: p.path,
          cur := c, cursor := 0, engineLoader := p.engineLoader,
          globalKbd := p.globalKbd } := by
  rw [navStep_down_some, hfind]
  simp [hc]

theorem take_uid_ne_of_nodup : ∀ (l : List PTree) (idx : Nat) (c : PTree),
    l[idx]? = some c → (l.map PTree.uid).Nodup →
    ∀ x ∈ l.take idx, x.uid ≠ c.uid := by
  intro l
  induction l with
  | nil =>
    intro idx c hc
    simp at hc
  | cons t ts ih =>
    intro idx c hc hnd
    rw [List.map_cons] at hnd
    obtain ⟨hhead, htail⟩ := List.nodup_cons.1 hnd
    cases idx with
    | zero => simp
    | succ i =>
      intro x hx
      rw [List.take_succ_cons] at hx
      have hc' : ts[i]? = some c := by simpa using hc
      rcases List.mem_cons.1 hx with rfl | hx2
      · have hmem : c ∈ ts := by
          obtain ⟨hlt, rfl⟩ := List.getElem?_eq_some_iff.1 hc'
          exact List.getElem_mem ..
        intro he
        exact hhead (he ▸ List.mem_map_of_mem _ hmem)
      · exact ih i c hc' htail x hx2

theorem handleNav_fields (L : LoaderEnv) (p : Pag) (act : MoveAction) :
    (handleNav L p act).1.path = (navStep p act).path
    ∧ (handleNav L p act).1.cursor = (navStep p act).cursor
    ∧ (handleNav L p act).1.cur.uid = (navStep p act).cur.uid
    ∧ (handleNav L p act).1.cur.core = (navStep p act).cur.core
    ∧ (handleNav L p act).1.engineLoader = (navStep p act).engineLoader
    ∧ (∀ (i : Nat) (u : String),
        ((navStep p act).cur.children.map PTree.uid)[i]? = some u →
        ((handleNav L p act).1.cur.children.map PTree.uid)[i]? = some u) := by
  cases hre : renderStep L none (navStep p act) with
  | error e =>
    cases e
    rw [handleNav_of_error hre]
    exact ⟨rfl, rfl, rfl, rfl, rfl, fun i u h => h⟩
  | ok r =>
    obtain ⟨q, hm, cs⟩ := r
    rw [handleNav_of_ok hre]
    have hp := renderStep_ok_preserve hre
    exact ⟨hp.1, hp.2.1, hp.2.2.2.2.1, hp.2.2.2.2.2.1, hp.2.2.1,
      hp.2.2.2.2.2.2⟩

/-- Claim C5: descending into the child at index `idx` of the displayed
node and navigating back up restores the original node as displayed node
with cursor `(idx / page_size) * page_size`; that cursor places `idx`
inside the displayed window and the child stays visible in the window of
the resulting page; at the root, `up` changes nothing. -/
theorem c5_theorem (L : LoaderEnv) (p : Pag) (idx : Nat) (c : PTree)
    (hc : p.cur.children[idx]? = some c)
    (hnd : (p.cur.children.map PTree.uid).Nodup)
    (hps : 0 < p.cur.core.ps) :
    (handleNav L (handleNav L p (MoveAction.down (some c.uid))).1
        MoveAction.up).1.cur.uid = p.cur.uid
    ∧ (handleNav L (handleNav L p (MoveAction.down (some c.uid))).1
        MoveAction.up).1.path = p.path
    ∧ (handleNav L (handleNav L p (MoveAction.down (some c.uid))).1
        MoveAction.up).1.cursor
        = ((idx / p.cur.core.ps * p.cur.core.ps : Nat) : Int)
    ∧ (idx / p.cur.core.ps * p.cur.core.ps ≤ idx
        ∧ idx < idx / p.cur.core.ps * p.cur.core.ps + p.cur.core.ps)
    ∧ c.uid ∈ ((navWindow
        (handleNav L (handleNav L p (MoveAction.down (some c.uid))).1
          MoveAction.up).1.cur
        (handleNav L (handleNav L p (MoveAction.down (some c.uid))).1
          MoveAction.up).1.cursor).map PTree.uid)
    ∧ (∀ r : Pag, r.path = [] → navStep r MoveAction.up = r) := by
  have hlt : idx < p.cur.children.length := (List.getElem?_eq_some_iff.1 hc).1
  have hfind := findUidIdx_eq_of_getElem hc hnd
  have hp1 := navStep_down_eq hc hfind
  have hf1 := handleNav_fields L p (MoveAction.down (some c.uid))
  rw [hp1] at hf1
  dsimp only at hf1
  have hne := take_uid_ne_of_nodup p.cur.children idx c hc hnd
  have hup := navStep_up_cons hf1.1
  dsimp only at hup
  have hlen1 : ((p.cur.children.take idx).map PTree.uid).length = idx := by
    rw [List.length_map, List.length_take]
    exact Nat.min_eq_left (le_of_lt hlt)
  have hfind2 : findUidIdx
      (p.cur.children.take idx
        ++ [(handleNav L p (MoveAction.down (some c.uid))).1.cur]
        ++ p.cur.children.drop (idx + 1))
      (handleNav L p (MoveAction.down (some c.uid))).1.cur.uid
      = some idx := by
    rw [List.append_assoc, List.singleton_append,
      findUidIdx_append_middle _ _ _
        (fun x hx => by rw [hf1.2.2.1]; exact hne x hx),
      List.length_take, Nat.min_eq_left (le_of_lt hlt)]
  rw [hfind2] at hup
  have hf2 := handleNav_fields L
    (handleNav L p (MoveAction.down (some c.uid))).1 MoveAction.up
  rw [hup] at hf2
  dsimp only at hf2
  have hk1 : idx / p.cur.core.ps * p.cur.core.ps ≤ idx :=
    Nat.div_mul_le_self ..
  have hk2 : idx < idx / p.cur.core.ps * p.cur.core.ps + p.cur.core.ps := by
    have hm1 : idx % p.cur.core.ps < p.cur.core.ps := Nat.mod_lt _ hps
    have hm3 : idx / p.cur.core.ps * p.cur.core.ps + idx % p.cur.core.ps
        = idx := by
      rw [Nat.mul_comm]
      exact Nat.div_add_mod ..
    generalize idx / p.cur.core.ps * p.cur.core.ps = k at hm3 ⊢
    generalize idx % p.cur.core.ps = m at hm1 hm3
    omega
  have base0 : ((p.cur.children.take idx
        ++ [(handleNav L p (MoveAction.down (some c.uid))).1.cur]
        ++ p.cur.children.drop (idx + 1)).map PTree.uid)[idx]?
      = some c.uid := by
    rw [List.append_assoc, List.singleton_append, List.map_append,
      List.map_cons, List.getElem?_append_right hlen1.le, hlen1,
      Nat.sub_self, List.getElem?_cons_zero, hf1.2.2.1]
  have hqidx := hf2.2.2.2.2.2 idx c.uid base0
  refine ⟨hf2.2.2.1, hf2.1, hf2.2.1, ⟨hk1, hk2⟩, ?_, fun r hr =>
    navStep_up_nil hr⟩
  unfold navWindow
  rw [List.map_take, List.map_drop]
  have hps2 : (handleNav L (handleNav L p (MoveAction.down (some c.uid))).1
      MoveAction.up).1.cur.core.ps = p.cur.core.ps :=
    congrArg NodeCore.ps hf2.2.2.2.1
  rw [hf2.2.1, hps2, Int.toNat_natCast]
  have hsub : idx - idx / p.cur.core.ps * p.cur.core.ps < p.cur.core.ps := by
    generalize idx / p.cur.core.ps * p.cur.core.ps = k at hk1 hk2 ⊢
    omega
  have hadd : idx / p.cur.core.ps * p.cur.core.ps
      + (idx - idx / p.cur.core.ps * p.cur.core.ps) = idx := by
    generalize idx / p.cur.core.ps * p.cur.core.ps = k at hk1 ⊢
    omega
  have h6 : ((((handleNav L (handleNav L p (MoveAction.down (some c.uid))).1
        MoveAction.up).1.cur.children.map PTree.uid).drop
        (idx / p.cur.core.ps * p.cur.core.ps)).take
        p.cur.core.ps)[idx - idx / p.cur.core.ps * p.cur.core.ps]?
      = some c.uid := by
    rw [List.getElem?_take_of_lt hsub, List.getElem?_drop, hadd]
    exact hqidx
  exact List.getElem?_mem h6

/-- A catalog-like parent node with seven children and page size 5. -/
def parentPag : Pag :=
  mkPag (.node "cat_root" demoCore
    [demoLeaf "p1" "A", demoLeaf "p2" "B", demoLeaf "p3" "C",
     demoLeaf "p4" "D", demoLeaf "p5" "E", demoLeaf "p6" "F",
     demoLeaf "p7" "G"]) none []

/-- Witness for C5: down into the seventh child and back up lands on the
parent with cursor `(6 / 5) * 5 = 5`. -/
theorem c5_witness :
    (handleNav nilLoader (handleNav nilLoader parentPag
        (MoveAction.down (some (demoLeaf "p7" "G").uid))).1
      MoveAction.up).1.cur.uid = parentPag.cur.uid
    ∧ (handleNav nilLoader (handleNav nilLoader parentPag
        (MoveAction.down (some (demoLeaf "p7" "G").uid))).1
      MoveAction.up).1.cursor
        = ((6 / parentPag.cur.core.ps * parentPag.cur.core.ps : Nat) : Int) :=
  ⟨(c5_theorem nilLoader parentPag 6 (demoLeaf "p7" "G") rfl (by decide)
      (by decide)).1,
   (c5_theorem nilLoader parentPag 6 (demoLeaf "p7" "G") rfl (by decide)
      (by decide)).2.2.1⟩

/-! ## Helpers for the label-keyed keyboard claim -/

theorem length_iteInsert_le {α β : Type} [DecidableEq α] {c : Prop}
    [Decidable c] (d : List (α × β)) (k : α) (v : β) :
    (if c then dictInsert d k v else d).length
      ≤ d.length + (if c then 1 else 0) := by
  split
  · exact length_dictInsert_le ..
  · simp

theorem controlButtons_length_le (t : PTree) (hp : Bool) (cursor : Int)
    (hm : Bool) (kb : Kbd) :
    (controlButtons t hp cursor hm kb).length
      ≤ kb.length + ((if 0 < cursor then 1 else 0)
        + (if t.core.ps < t.children.length then 1 else 0)
        + (if hm = true then 1 else 0)
        + (if hp = true then 1 else 0)) := by
  simp only [controlButtons]
  have h4 := length_iteInsert_le (c := hp = true)
    (if hm = true then
      dictInsert (if t.core.ps < t.children.length then
        dictInsert (if 0 < cursor then
          dictInsert kb (some "⬅️") BtnAction.prev else kb)
          (some (pageNumLabel cursor t.core.ps)) BtnAction.current
        else (if 0 < cursor then
          dictInsert kb (some "⬅️") BtnAction.prev else kb))
        (some "➡️") BtnAction.next
      else (if t.core.ps < t.children.length then
        dictInsert (if 0 < cursor then
          dictInsert kb (some "⬅️") BtnAction.prev else kb)
          (some (pageNumLabel cursor t.core.ps)) BtnAction.current
        else (if 0 < cursor then
          dictInsert kb (some "⬅️") BtnAction.prev else kb)))
    (some "Назад") BtnAction.up
  have h3 := length_iteInsert_le (c := hm = true)
    (if t.core.ps < t.children.length then
      dictInsert (if 0 < cursor then
        dictInsert kb (some "⬅️") BtnAction.prev else kb)
        (some (pageNumLabel cursor t.core.ps)) BtnAction.current
      else (if 0 < cursor then
        dictInsert kb (some "⬅️") BtnAction.prev else kb))
    (some "➡️") BtnAction.next
  have h2 := length_iteInsert_le (c := t.core.ps < t.children.length)
    (if 0 < cursor then dictInsert kb (some "⬅️") BtnAction.prev else kb)
    (some (pageNumLabel cursor t.core.ps)) BtnAction.current
  have h1 := length_iteInsert_le (c := 0 < cursor) kb (some "⬅️")
    BtnAction.prev
  omega

theorem controlButtons_mem_down {t : PTree} {hp : Bool} {cursor : Int}
    {hm : Bool} {kb : Kbd} {a : Option String} {u : String}
    (h : (a, BtnAction.down u) ∈ controlButtons t hp cursor hm kb) :
    (a, BtnAction.down u) ∈ kb := by
  simp only [controlButtons] at h
  have h4 := mem_iteInsert_of_ne_val (by simp) h
  have h3 := mem_iteInsert_of_ne_val (by simp) h4
  have h2 := mem_iteInsert_of_ne_val (by simp) h3
  exact mem_iteInsert_of_ne_val (by simp) h2

theorem mergeKbd_mem_down {nav : Kbd} {customKbd gk : List (String × String)}
    {a : Option String} {u : String}
    (h : (a, BtnAction.down u) ∈ mergeKbd nav customKbd gk) :
    (a, BtnAction.down u) ∈ nav := by
  unfold mergeKbd at h
  rcases foldInsert_mem (fun q => some q.1) (fun q => BtnAction.custom q.2)
      gk _ a _ h with ⟨x, _, _, hv⟩ | h2
  · exact absurd hv (by simp)
  · rcases foldInsert_mem (fun q => some q.1) (fun q => BtnAction.custom q.2)
        customKbd nav a _ h2 with ⟨x, _, _, hv⟩ | h3
    · exact absurd hv (by simp)
    · exact h3

theorem childButtons_last {window : List PTree} {L : Option String}
    {c2 : PTree}
    (hfind : window.reverse.find? (fun x => decide (x.core.label = L))
      = some c2) (b : BtnAction) :
    ((L, b) ∈ childButtons window ↔ b = BtnAction.down c2.uid) := by
  unfold childButtons
  exact foldInsert_last (fun c => c.core.label)
    (fun c => BtnAction.down c.uid) window [] L c2 hfind b

theorem children_not_empty_of_window {t : PTree} {cursor : Int} {j : Nat}
    {c : PTree} (h : (navWindow t cursor)[j]? = some c) :
    t.children.isEmpty = false := by
  cases hE : t.children.isEmpty with
  | false => rfl
  | true =>
    exfalso
    have hnil : t.children = [] := List.isEmpty_iff.1 hE
    unfold navWindow at h
    rw [hnil] at h
    simp at h

theorem assoc_nodup_unique {l : List (String × String)}
    (hnd : (l.map Prod.fst).Nodup) {k v1 v2 : String}
    (h1 : (k, v1) ∈ l) (h2 : (k, v2) ∈ l) : v1 = v2 := by
  induction l with
  | nil => simp at h1
  | cons a tl ih =>
    rw [List.map_cons] at hnd
    obtain ⟨hhead, htail⟩ := List.nodup_cons.1 hnd
    rcases List.mem_cons.1 h1 with rfl | h1t
    · rcases List.mem_cons.1 h2 with heq | h2t
      · injection heq with _ hv
        exact hv.symm
      · exact absurd (List.mem_map_of_mem Prod.fst h2t) hhead
    · rcases List.mem_cons.1 h2 with heq | h2t
      · exfalso
        apply hhead
        rw [← heq]
        show k ∈ List.map Prod.fst tl
        exact List.mem_map_of_mem Prod.fst h1t
      · exact ih htail h1t h2t

/-- Claim C10: the rendered keyboard is keyed by button label. If two
children of the displayed window share a label (the second one last with
that label), only one descend button carrying that label is produced and
it is bound to the later child; a descend button surviving into the final
merged keyboard is bound to the later child; a custom action whose label
equals any button label replaces that button in the final merged
keyboard, and so does a global action, which is merged last and wins the
label unconditionally; and the keyboard has strictly fewer buttons than
children in the window plus control buttons. -/
theorem c10_theorem (t : PTree) (hasParent : Bool) (cursor : Int)
    (hasMore : Bool) (L : Option String) (i j : Nat) (c1 c2 : PTree)
    (h1 : (navWindow t cursor)[i]? = some c1)
    (h2 : (navWindow t cursor)[j]? = some c2)
    (hij : i < j)
    (hl1 : c1.core.label = L) (hl2 : c2.core.label = L)
    (hlast : ∀ (k : Nat) (d : PTree), j < k →
      (navWindow t cursor)[k]? = some d → d.core.label ≠ L) :
    ((L, BtnAction.down c2.uid) ∈ childButtons (navWindow t cursor)
      ∧ ∀ b, (L, b) ∈ childButtons (navWindow t cursor)
          → b = BtnAction.down c2.uid)
    ∧ (∀ (gk : List (String × String)) (u : String),
        (L, BtnAction.down u) ∈ pageButtons t hasParent cursor hasMore gk →
        u = c2.uid)
    ∧ (∀ (lab tok : String) (gk : List (String × String)),
        (lab, tok) ∈ t.core.customKbd →
        (t.core.customKbd.map Prod.fst).Nodup →
        (∀ q ∈ gk, q.1 ≠ lab) →
        ((some lab, BtnAction.custom tok)
            ∈ pageButtons t hasParent cursor hasMore gk
          ∧ ∀ b, (some lab, b) ∈ pageButtons t hasParent cursor hasMore gk
              → b = BtnAction.custom tok))
    ∧ (∀ (lab tok : String) (gk : List (String × String)),
        (lab, tok) ∈ gk →
        (gk.map Prod.fst).Nodup →
        ((some lab, BtnAction.custom tok)
            ∈ pageButtons t hasParent cursor hasMore gk
          ∧ ∀ b, (some lab, b) ∈ pageButtons t hasParent cursor hasMore gk
              → b = BtnAction.custom tok))
    ∧ (createNavigation t hasParent cursor hasMore).1.length
        < (navWindow t cursor).length
          + ((if 0 < cursor then 1 else 0)
            + (if t.core.ps < t.children.length then 1 else 0)
            + (if hasMore = true then 1 else 0)
            + (if hasParent = true then 1 else 0)) := by
  have hfindrev : (navWindow t cursor).reverse.find?
      (fun x => decide (x.core.label = L)) = some c2 := by
    refine reverse_find?_of_last _ _ j c2 h2 (by simp [hl2]) ?_
    intro k y hk hky
    simp only [decide_eq_false_iff_not]
    exact hlast k y hk hky
  have hEmp := children_not_empty_of_window h2
  have hwlt : j < (navWindow t cursor).length :=
    (List.getElem?_eq_some_iff.1 h2).1
  refine ⟨?_, ?_, ?_, ?_, ?_⟩
  · exact ⟨(childButtons_last hfindrev (BtnAction.down c2.uid)).2 rfl,
      fun b hb => (childButtons_last hfindrev b).1 hb⟩
  · intro gk u hmem
    unfold pageButtons at hmem
    have hnav := mergeKbd_mem_down hmem
    have hnav2 : (L, BtnAction.down u) ∈ controlButtons t hasParent cursor
        hasMore (if t.children.isEmpty then []
          else childButtons (navWindow t cursor)) := hnav
    have hkb := controlButtons_mem_down hnav2
    rw [hEmp] at hkb
    simp only [Bool.false_eq_true, if_false] at hkb
    have := (childButtons_last hfindrev (BtnAction.down u)).1 hkb
    injection this
  · intro lab tok gk hmem hnd hgk
    have hsome : ((t.core.customKbd.reverse.find?
        (fun q => decide (some q.1 = some lab)))).isSome := by
      rw [List.find?_isSome]
      exact ⟨(lab, tok), List.mem_reverse.2 hmem, by simp⟩
    obtain ⟨x0, hx0⟩ := Option.isSome_iff_exists.1 hsome
    have hx0k : x0.1 = lab := by simpa using List.find?_some hx0
    have hx0m : x0 ∈ t.core.customKbd :=
      List.mem_reverse.1 (List.mem_of_find?_eq_some hx0)
    have hx0v : x0.2 = tok := by
      have h3 : (lab, x0.2) ∈ t.core.customKbd := by
        rw [← hx0k, Prod.mk.eta]
        exact hx0m
      exact assoc_nodup_unique hnd h3 hmem
    have hiff := fun b => foldInsert_last (fun q => some q.1)
      (fun q => BtnAction.custom q.2) t.core.customKbd
      (createNavigation t hasParent cursor hasMore).1 (some lab) x0 hx0 b
    have hglob := fun b => foldInsert_no_key (fun q => some q.1)
      (fun q => BtnAction.custom q.2) gk
      (t.core.customKbd.foldl
        (fun kb q => dictInsert kb (some q.1) (BtnAction.custom q.2))
        (createNavigation t hasParent cursor hasMore).1)
      (some lab) (fun x hx hcon => hgk x hx (Option.some.inj hcon)) b
    constructor
    · show (some lab, BtnAction.custom tok) ∈ mergeKbd _ _ _
      unfold mergeKbd
      exact (hglob _).2 ((hiff _).2 (by rw [hx0v]))
    · intro b hb
      unfold pageButtons mergeKbd at hb
      have hbv := (hiff b).1 ((hglob b).1 hb)
      rw [hbv, hx0v]
  · intro lab tok gk hmem hnd
    have hsome : ((gk.reverse.find?
        (fun q => decide (some q.1 = some lab)))).isSome := by
      rw [List.find?_isSome]
      exact ⟨(lab, tok), List.mem_reverse.2 hmem, by simp⟩
    obtain ⟨x0, hx0⟩ := Option.isSome_iff_exists.1 hsome
    have hx0k : x0.1 = lab := by simpa using List.find?_some hx0
    have hx0m : x0 ∈ gk :=
      List.mem_reverse.1 (List.mem_of_find?_eq_some hx0)
    have hx0v : x0.2 = tok := by
      have h3 : (lab, x0.2) ∈ gk := by
        rw [← hx0k, Prod.mk.eta]
        exact hx0m
      exact assoc_nodup_unique hnd h3 hmem
    have hiff := fun b => foldInsert_last (fun q => some q.1)
      (fun q => BtnAction.custom q.2) gk
      (t.core.customKbd.foldl
        (fun kb q => dictInsert kb (some q.1) (BtnAction.custom q.2))
        (createNavigation t hasParent cursor hasMore).1) (some lab) x0 hx0 b
    constructor
    · show (some lab, BtnAction.custom tok) ∈ mergeKbd _ _ _
      unfold mergeKbd
      exact (hiff _).2 (by rw [hx0v])
    · intro b hb
      unfold pageButtons mergeKbd at hb
      have hbv := (hiff b).1 hb
      rw [hbv, hx0v]
  · have hc1mem : c1 ∈ (navWindow t cursor).take j := by
      refine List.getElem?_mem (n := i) ?_
      rw [List.getElem?_take_of_lt hij]
      exact h1
    obtain ⟨b0, hb0⟩ := foldInsert_present (fun c => c.core.label)
      (fun c => BtnAction.down c.uid) ((navWindow t cursor).take j) [] c1
      hc1mem
    have hwin : navWindow t cursor
        = (navWindow t cursor).take j
          ++ c2 :: (navWindow t cursor).drop (j + 1) := by
      conv_lhs => rw [← List.take_append_drop j (navWindow t cursor)]
      congr 1
      rw [List.drop_eq_getElem_cons hwlt]
      obtain ⟨hh, he⟩ := List.getElem?_eq_some_iff.1 h2
      rw [he]
    have hlen1 : (((navWindow t cursor).take j).foldl
        (fun kb c => dictInsert kb c.core.label (BtnAction.down c.uid))
        []).length ≤ j := by
      have hle := foldInsert_length_le (fun c => c.core.label)
        (fun c => BtnAction.down c.uid) ((navWindow t cursor).take j) []
      rw [List.length_nil, List.length_take] at hle
      omega
    have hb02 : (c2.core.label, b0) ∈ ((navWindow t cursor).take j).foldl
        (fun kb c => dictInsert kb c.core.label (BtnAction.down c.uid))
        [] := by
      rw [hl2, ← hl1]
      exact hb0
    have hins := length_dictInsert_of_mem hb02 (BtnAction.down c2.uid)
    have hsplit : childButtons (navWindow t cursor)
        = ((navWindow t cursor).drop (j + 1)).foldl
            (fun kb c => dictInsert kb c.core.label (BtnAction.down c.uid))
            (dictInsert (((navWindow t cursor).take j).foldl
              (fun kb c => dictInsert kb c.core.label (BtnAction.down c.uid))
              []) c2.core.label (BtnAction.down c2.uid)) := by
      unfold childButtons
      conv_lhs => rw [hwin]
      rw [List.foldl_append, List.foldl_cons]
    have hlen2 : (childButtons (navWindow t cursor)).length
        ≤ (navWindow t cursor).length - 1 := by
      rw [hsplit]
      have hle2 := foldInsert_length_le (fun c => c.core.label)
        (fun c => BtnAction.down c.uid) ((navWindow t cursor).drop (j + 1))
        (dictInsert (((navWindow t cursor).take j).foldl
          (fun kb c => dictInsert kb c.core.label (BtnAction.down c.uid))
          []) c2.core.label (BtnAction.down c2.uid))
      rw [hins, List.length_drop] at hle2
      omega
    have hfinal := controlButtons_length_le t hasParent cursor hasMore
      (if t.children.isEmpty then [] else childButtons (navWindow t cursor))
    rw [hEmp] at hfinal
    simp only [Bool.false_eq_true, if_false] at hfinal
    have hcn : (createNavigation t hasParent cursor hasMore).1
        = controlButtons t hasParent cursor hasMore
          (if t.children.isEmpty then []
            else childButtons (navWindow t cursor)) := rfl
    rw [hcn, hEmp]
    simp only [Bool.false_eq_true, if_false]
    omega

/-- A node whose first two children share the label `X`. -/
def dupTree : PTree :=
  .node "r" demoCore
    [demoLeaf "a" "X", demoLeaf "b" "X", demoLeaf "c" "C"]

/-- Witness for C10: with two `X`-labelled children, the single `X`
button descends to the later child `b`, and the keyboard has fewer
buttons than window children plus controls. -/
theorem c10_witness :
    ((some "X", BtnAction.down "b") ∈ childButtons (navWindow dupTree 0))
    ∧ ((some "X", BtnAction.custom "go")
        ∈ pageButtons dupTree true 0 true [("X", "go")])
    ∧ (createNavigation dupTree true 0 true).1.length < 5 := by
  have hlast : ∀ (k : Nat) (d : PTree), 1 < k →
      (navWindow dupTree 0)[k]? = some d → d.core.label ≠ some "X" := by
    intro k d hk hkd
    have hlen : (navWindow dupTree 0).length = 3 := rfl
    have hk3 : k < 3 := by
      have := (List.getElem?_eq_some_iff.1 hkd).1
      omega
    have hk2 : k = 2 := by omega
    subst hk2
    have he : (navWindow dupTree 0)[2]? = some (demoLeaf "c" "C") := rfl
    rw [he] at hkd
    have hd := (Option.some.inj hkd).symm
    subst hd
    decide
  exact ⟨(c10_theorem dupTree true 0 true (some "X") 0 1 (demoLeaf "a" "X")
      (demoLeaf "b" "X") rfl rfl (by decide) rfl rfl hlast).1.1,
    ((c10_theorem dupTree true 0 true (some "X") 0 1 (demoLeaf "a" "X")
      (demoLeaf "b" "X") rfl rfl (by decide) rfl rfl hlast).2.2.2.1 "X" "go"
      [("X", "go")] (by decide) (by decide)).1,
    (c10_theorem dupTree true 0 true (some "X") 0 1 (demoLeaf "a" "X")
      (demoLeaf "b" "X") rfl rfl (by decide) rfl rfl hlast).2.2.2.2⟩
